import Mathlib

/-!
Verification of the ansys_vis result-extraction, comparison-metric and
boundary-classification core against its natural-language specification.

The embedding follows the Python source:
- `src/1109/metric_registry.py` (`_mse`, the shape guard in
  `app_ui.App._on_calc_metric`),
- `src/1109/backend_pyvista.py` (the shared color-range computation in
  `PyVistaBackend.show` and the boundary classifier in
  `PyVistaBackend._add_boundary_subplot`),
- `src/1109/result_registry.py` (`_safe_norm_if_vector` and the six
  registered extractors),
- `src/1109/vis_lab.py` (`Vis_tools.dis_solution`, `stress_solution`,
  `stress_pr_solution`).

Floating-point values flowing through the metric engine and the range
unifier are modelled as an inductive type `Fl` with a finite (rational)
case, signed infinities and NaN; arithmetic on the finite case is exact
rational arithmetic.  Mesh/grid state and Python object aliasing are
modelled with an explicit heap of grids addressed by natural-number
references, so that copy-on-extract and attribute mutation are visible
in the model.
-/

deriving instance DecidableEq for Except

/-- A 64-bit float value as relevant to the metric / range pipeline:
a finite value (modelled exactly as a rational), positive or negative
infinity, or NaN. -/
inductive Fl where
  | fin (q : ℚ)
  | pinf
  | ninf
  | nan
deriving DecidableEq, Repr

/-- `np.isfinite` on a single value. -/
def Fl.isFinite : Fl → Bool
  | .fin _ => true
  | _ => false

/-- `np.isnan` on a single value. -/
def Fl.isNan : Fl → Bool
  | .nan => true
  | _ => false

/-- The rational carried by a finite value (0 for non-finite values; the
code only reads this on values that passed the finiteness mask). -/
def Fl.toQ : Fl → ℚ
  | .fin q => q
  | _ => 0

/-- IEEE comparison `x <= y`: false whenever NaN is involved. -/
def fle : Fl → Fl → Bool
  | .fin q, .fin r => decide (q ≤ r)
  | .ninf, .fin _ => true
  | .ninf, .pinf => true
  | .ninf, .ninf => true
  | .fin _, .pinf => true
  | .pinf, .pinf => true
  | _, _ => false

/-- IEEE comparison `x < y`: false whenever NaN is involved. -/
def fltB : Fl → Fl → Bool
  | .fin q, .fin r => decide (q < r)
  | .ninf, .fin _ => true
  | .ninf, .pinf => true
  | .fin _, .pinf => true
  | _, _ => false

/-- Binary minimum of two non-NaN values (the reduction step used by
`np.nanmin` after NaNs are dropped). -/
def fmin (x y : Fl) : Fl := if fle x y then x else y

/-- Binary maximum of two non-NaN values (the reduction step used by
`np.nanmax` after NaNs are dropped). -/
def fmax (x y : Fl) : Fl := if fle y x then x else y

/-- Error kinds the metric engine can surface (`ValueError`s raised by
`_mse`, plus the errors numpy itself raises on malformed indexing). -/
inductive MErr where
  | noValidData      -- "無有效資料可比較"
  | shapeMismatch    -- "尺寸不一致: ..."
  | broadcastError   -- numpy broadcast failure in `isfinite(a) & isfinite(b)`
  | indexError       -- boolean-mask indexing with a wrong-length mask
deriving DecidableEq, Repr

/-- Result length of broadcasting two 1-D shapes (numpy rules). -/
def bcastLen (n m : ℕ) : Option ℕ :=
  if n = m then some n else if n = 1 then some m else if m = 1 then some n else none

/-- Broadcast a 1-D array to length `n` (identity when the length already
matches, replication of the single element otherwise). -/
def stretchFl (xs : List Fl) (n : ℕ) : List Fl :=
  if xs.length = n then xs else List.replicate n (xs.headD Fl.nan)

/-- Boolean-mask selection `a[mask]` for equal-length mask. -/
def boolSelect {α : Type} : List α → List Bool → List α
  | x :: xs, b :: bs => if b then x :: boolSelect xs bs else boolSelect xs bs
  | _, _ => []

/-- Body of `_mse` (src/1109/metric_registry.py lines 22-29) after the
broadcast length `n` of the two inputs has been determined:
build the finiteness mask, fail with NoValidData when it selects nothing,
filter both arrays, fail with ShapeMismatch when the filtered shapes
differ, and otherwise return the mean of squared differences. -/
def mseWithLen (a b : List Fl) (n : ℕ) : Except MErr ℚ :=
  let mask := List.zipWith (fun x y => x.isFinite && y.isFinite) (stretchFl a n) (stretchFl b n)
  if mask.any id = false then .error .noValidData
  else if a.length ≠ mask.length then .error .indexError
  else if b.length ≠ mask.length then .error .indexError
  else
    let a2 := boolSelect a mask
    let b2 := boolSelect b mask
    if a2.length ≠ b2.length then .error .shapeMismatch
    else .ok ((List.zipWith (fun x y => (Fl.toQ x - Fl.toQ y) ^ 2) a2 b2).sum / (a2.length : ℚ))

/-- `_mse` (src/1109/metric_registry.py lines 22-29): the registered
handler behind `Metrics.compute("mse", a, b)`. -/
def mse (a b : List Fl) : Except MErr ℚ :=
  match bcastLen a.length b.length with
  | none => .error .broadcastError
  | some n => mseWithLen a b n

/-- Outcome surfaced by `App._on_calc_metric`
(src/1109/app_ui.py lines 161-175). -/
inductive MetricOutcome where
  | missingData                 -- "資料不足或欄位缺失"
  | shapeMismatch (na nb : ℕ)   -- "尺寸不一致 {a.shape} vs {b.shape}"
  | value (q : ℚ)               -- "{val:.6f}"
  | computeFailed (e : MErr)    -- exception path: "計算失敗"
deriving DecidableEq, Repr

/-- The metric-computation step of `App._on_calc_metric`
(src/1109/app_ui.py lines 161-172), starting from the two extracted
metric arrays: refuse on a missing array, refuse with the shape-mismatch
message when the shapes differ, otherwise call `Metrics.compute`. -/
def on_calc_metric (a b : Option (List Fl)) : MetricOutcome :=
  match a, b with
  | none, _ => .missingData
  | _, none => .missingData
  | some a, some b =>
    if a.length ≠ b.length then .shapeMismatch a.length b.length
    else
      match mse a b with
      | .ok v => .value v
      | .error e => .computeFailed e

theorem zipMask_eq (a b : List Fl) (ha : ∀ x ∈ a, x.isFinite = true)
    (hb : ∀ y ∈ b, y.isFinite = true) :
    List.zipWith (fun x y => x.isFinite && y.isFinite) a b =
      List.replicate (min a.length b.length) true := by
  induction a generalizing b with
  | nil => simp
  | cons x xs ih =>
    cases b with
    | nil => simp
    | cons y ys =>
      have hx : x.isFinite = true := ha x (List.mem_cons_self _ _)
      have hy : y.isFinite = true := hb y (List.mem_cons_self _ _)
      simp only [List.zipWith, hx, hy, Bool.and_self, List.length_cons,
        Nat.succ_min_succ, List.replicate]
      exact congrArg _ (ih ys (fun z hz => ha z (List.mem_cons_of_mem _ hz))
        (fun z hz => hb z (List.mem_cons_of_mem _ hz)))

theorem boolSelect_replicate_true {α : Type} (l : List α) :
    boolSelect l (List.replicate l.length true) = l := by
  induction l with
  | nil => rfl
  | cons x xs ih => simp [boolSelect, List.replicate, ih]

theorem any_replicate_true (n : ℕ) (h : 0 < n) :
    (List.replicate n true).any id = true := by
  cases n with
  | zero => exact absurd h (by simp)
  | succ m => simp [List.replicate]

theorem boolSelect_length_eq {α β : Type} (m : List Bool) (a : List α) (b : List β)
    (h : a.length = b.length) :
    (boolSelect a m).length = (boolSelect b m).length := by
  induction m generalizing a b with
  | nil =>
    cases a <;> cases b <;> simp [boolSelect]
  | cons c cs ih =>
    cases a with
    | nil =>
      cases b with
      | nil => rfl
      | cons y ys => simp at h
    | cons x xs =>
      cases b with
      | nil => simp at h
      | cons y ys =>
        simp only [List.length_cons, Nat.succ.injEq] at h
        cases c with
        | false => simpa [boolSelect] using ih xs ys h
        | true => simpa [boolSelect] using ih xs ys h

theorem zip_any_false_left (a b : List Fl) (ha : ∀ x ∈ a, x.isFinite = false) :
    (List.zipWith (fun x y => x.isFinite && y.isFinite) a b).any id = false := by
  induction a generalizing b with
  | nil => simp
  | cons x xs ih =>
    cases b with
    | nil => simp
    | cons y ys =>
      have hx : x.isFinite = false := ha x (List.mem_cons_self _ _)
      simp only [List.zipWith, hx, Bool.false_and, List.any_cons, id_eq,
        Bool.false_or]
      exact ih ys (fun z hz => ha z (List.mem_cons_of_mem _ hz))

theorem zip_any_false_right (a b : List Fl) (hb : ∀ y ∈ b, y.isFinite = false) :
    (List.zipWith (fun x y => x.isFinite && y.isFinite) a b).any id = false := by
  induction a generalizing b with
  | nil => simp
  | cons x xs ih =>
    cases b with
    | nil => simp
    | cons y ys =>
      have hy : y.isFinite = false := hb y (List.mem_cons_self _ _)
      simp only [List.zipWith, hy, Bool.and_false, List.any_cons, id_eq,
        Bool.false_or]
      exact ih ys (fun z hz => hb z (List.mem_cons_of_mem _ hz))

theorem mse_eq_withLen (a b : List Fl) (hlen : a.length = b.length) :
    mse a b = mseWithLen a b a.length := by
  have hbc : bcastLen a.length b.length = some a.length := by
    simp [bcastLen, hlen]
  unfold mse
  rw [hbc]

theorem stretchFl_self (a : List Fl) : stretchFl a a.length = a := by
  simp [stretchFl]

/-- C1: for equal-length (non-empty) arrays whose elements are all finite,
`compute("mse", a, b)` returns the arithmetic mean of the squared
element-wise differences. -/
theorem mse_mean_of_finite (a b : List Fl)
    (hlen : a.length = b.length) (hne : a ≠ [])
    (ha : ∀ x ∈ a, x.isFinite = true) (hb : ∀ y ∈ b, y.isFinite = true) :
    mse a b = .ok ((List.zipWith (fun x y => (Fl.toQ x - Fl.toQ y) ^ 2) a b).sum
      / (a.length : ℚ)) := by
  rw [mse_eq_withLen a b hlen]
  have hstb : stretchFl b a.length = b := by rw [hlen]; exact stretchFl_self b
  have hmask : List.zipWith (fun x y => x.isFinite && y.isFinite) a b =
      List.replicate a.length true := by
    rw [zipMask_eq a b ha hb, hlen, Nat.min_self]
  have hpos : 0 < a.length := List.length_pos.mpr hne
  have hsa : boolSelect a (List.replicate a.length true) = a :=
    boolSelect_replicate_true a
  have hsb : boolSelect b (List.replicate a.length true) = b := by
    rw [hlen]; exact boolSelect_replicate_true b
  simp only [mseWithLen, stretchFl_self, hstb, hmask, hsa, hsb,
    List.length_replicate, any_replicate_true a.length hpos]
  rw [if_neg (by simp), if_neg (by simp), if_neg (by simp [hlen]),
    if_neg (by simp [hlen])]

/-- Witness for C1 at a concrete input. -/
theorem mse_mean_of_finite_witness :
    mse [Fl.fin 1, Fl.fin 3] [Fl.fin 0, Fl.fin 1] =
      .ok ((List.zipWith (fun x y => (Fl.toQ x - Fl.toQ y) ^ 2)
        [Fl.fin 1, Fl.fin 3] [Fl.fin 0, Fl.fin 1]).sum
          / (([Fl.fin 1, Fl.fin 3].length : ℕ) : ℚ)) :=
  mse_mean_of_finite _ _ rfl (by decide) (by decide) (by decide)

/-- C6: for equal-length arrays, `compute("mse", a, b)` fails with
NoValidData exactly when the finiteness mask selects zero elements; in
particular it does so when every element of `a`, or every element of `b`,
is NaN. -/
theorem mse_noValidData_iff (a b : List Fl) (hlen : a.length = b.length) :
    (mse a b = .error .noValidData ↔
      (List.zipWith (fun x y => x.isFinite && y.isFinite) a b).any id = false)
    ∧ ((∀ x ∈ a, x = Fl.nan) → mse a b = .error .noValidData)
    ∧ ((∀ y ∈ b, y = Fl.nan) → mse a b = .error .noValidData) := by
  have hstb : stretchFl b a.length = b := by rw [hlen]; exact stretchFl_self b
  have hmse : mse a b = mseWithLen a b a.length := mse_eq_withLen a b hlen
  have hiff : mse a b = .error .noValidData ↔
      (List.zipWith (fun x y => x.isFinite && y.isFinite) a b).any id = false := by
    rw [hmse]
    simp only [mseWithLen, stretchFl_self, hstb]
    by_cases hany :
        (List.zipWith (fun x y => x.isFinite && y.isFinite) a b).any id = false
    · rw [if_pos hany]
      simp [hany]
    · rw [if_neg hany]
      have hmlen : (List.zipWith (fun x y => x.isFinite && y.isFinite) a b).length
          = a.length := by
        rw [List.length_zipWith, hlen, Nat.min_self]
      rw [if_neg (by simp [hmlen]), if_neg (by simp [hmlen, hlen]),
        if_neg (by simp [boolSelect_length_eq _ a b hlen])]
      simp [hany]
  refine ⟨hiff, ?_, ?_⟩
  · intro ha
    exact hiff.mpr (zip_any_false_left a b
      (fun x hx => by rw [ha x hx]; rfl))
  · intro hb
    exact hiff.mpr (zip_any_false_right a b
      (fun y hy => by rw [hb y hy]; rfl))

/-- Witness for C6 at a concrete input. -/
theorem mse_noValidData_iff_witness :
    mse [Fl.nan] [Fl.fin 1] = .error .noValidData :=
  (mse_noValidData_iff [Fl.nan] [Fl.fin 1] rfl).2.1 (by decide)

/-- C5: arrays of differing length are rejected with the shape-mismatch
refusal by the metric-computation step (the caller-side guard of
`App._on_calc_metric`, as required by the spec), not with any other
error. -/
theorem calc_metric_shape_guard (a b : List Fl) (h : a.length ≠ b.length) :
    on_calc_metric (some a) (some b) = .shapeMismatch a.length b.length := by
  simp [on_calc_metric, h]

/-- Witness for C5 at a concrete input. -/
theorem calc_metric_shape_guard_witness :
    on_calc_metric (some [Fl.fin 1]) (some []) = .shapeMismatch 1 0 :=
  calc_metric_shape_guard [Fl.fin 1] [] (by decide)

/-- A 3-D point (a row of `grid.points`). -/
abbrev Pt3 := ℚ × ℚ × ℚ

/-- A 2-D numpy array of per-node features: its rows together with its
column count `shape[1]` (kept explicitly so that the shape is meaningful
even with zero rows). -/
structure Arr2 where
  rows : List (List ℚ)
  ncols : ℕ
deriving DecidableEq, Repr

/-- Well-formedness of a 2-D array: every row has `ncols` entries. -/
def Arr2.wf (m : Arr2) : Prop := ∀ r ∈ m.rows, r.length = m.ncols

/-- The `node_features` entry of `grid.point_data` as seen by the
boundary classifier: a 1-D array, a 2-D array, or an array of rank
`3 + extraDims`. -/
inductive FeatData where
  | arr1 (xs : List ℚ)
  | arr2 (m : Arr2)
  | arrHigher (extraDims : ℕ)
deriving DecidableEq, Repr

/-- Absolute tolerance `1e-10` used by `_add_boundary_subplot`. -/
def atol : ℚ := 1 / 10 ^ 10

/-- Default relative tolerance `1e-05` of `np.isclose`. -/
def rtol : ℚ := 1 / 10 ^ 5

/-- `np.isclose(x, 0.0, atol=atol)` with the default `rtol`:
`|x - 0| <= atol + rtol * |0|`. -/
def isclose0 (x : ℚ) : Bool := decide (|x - 0| ≤ atol + rtol * |(0 : ℚ)|)

/-- Per-row load test of `_add_boundary_subplot`
(src/1109/backend_pyvista.py line 136): any of the three load components
(columns 3:6) is not close to zero. -/
def rowIsLoad (r : List ℚ) : Bool := ((r.drop 3).take 3).any (fun x => !(isclose0 x))

/-- Per-row fixed test of `_add_boundary_subplot`
(src/1109/backend_pyvista.py line 137): all three restraint components
(columns 6:9) are close to zero. -/
def rowIsFixed (r : List ℚ) : Bool := ((r.drop 6).take 3).all (fun x => isclose0 x)

/-- Outcome of the boundary classification step of
`_add_boundary_subplot`: either the "資料不足" (insufficient data) text, or
the load/fixed point subsets that get rendered. -/
inductive ClassifyResult where
  | insufficient
  | classified (load_pts fixed_pts : List Pt3)
deriving DecidableEq, Repr

/-- The boundary classification performed by
`PyVistaBackend._add_boundary_subplot` (src/1109/backend_pyvista.py
lines 120-139): absent `node_features`, a non-2-D array, or fewer than 9
columns yields the insufficient-data outcome; otherwise nodes are split
into load points and fixed points by the per-row tolerance tests. -/
def classify (points : List Pt3) (feats : Option FeatData) : ClassifyResult :=
  match feats with
  | none => .insufficient
  | some (.arr1 _) => .insufficient
  | some (.arrHigher _) => .insufficient
  | some (.arr2 m) =>
    if m.ncols < 9 then .insufficient
    else .classified (boolSelect points (m.rows.map rowIsLoad))
      (boolSelect points (m.rows.map rowIsFixed))

theorem rowIsLoad_eq (r : List ℚ) :
    rowIsLoad r = decide (∃ x ∈ (r.drop 3).take 3, atol < |x|) := by
  rw [Bool.eq_iff_iff]
  simp [rowIsLoad, isclose0, not_le]

theorem rowIsFixed_eq (r : List ℚ) :
    rowIsFixed r = decide (∀ x ∈ (r.drop 6).take 3, |x| ≤ atol) := by
  rw [Bool.eq_iff_iff]
  simp [rowIsFixed, isclose0]

/-- C2: with a feature matrix of at least 9 columns, a node is a load
node exactly when one of its three load components (columns 3:6) exceeds
the absolute tolerance 1e-10 in magnitude, and a fixed node exactly when
all three restraint components (columns 6:9) are within that tolerance;
the two tests are independent, so a first row with a beyond-tolerance
load component and within-tolerance restraints appears in both outputs. -/
theorem classify_boundary_rule (points : List Pt3) (m : Arr2) (h9 : 9 ≤ m.ncols) :
    classify points (some (.arr2 m)) =
      .classified
        (boolSelect points (m.rows.map (fun r => decide (∃ x ∈ (r.drop 3).take 3, atol < |x|))))
        (boolSelect points (m.rows.map (fun r => decide (∀ x ∈ (r.drop 6).take 3, |x| ≤ atol))))
    ∧ (∀ p ps r rs, points = p :: ps → m.rows = r :: rs →
        (∃ x ∈ (r.drop 3).take 3, atol < |x|) →
        (∀ x ∈ (r.drop 6).take 3, |x| ≤ atol) →
        p ∈ boolSelect points (m.rows.map (fun r => decide (∃ x ∈ (r.drop 3).take 3, atol < |x|)))
        ∧ p ∈ boolSelect points (m.rows.map (fun r => decide (∀ x ∈ (r.drop 6).take 3, |x| ≤ atol)))) := by
  have hf1 : rowIsLoad = fun r => decide (∃ x ∈ (r.drop 3).take 3, atol < |x|) :=
    funext rowIsLoad_eq
  have hf2 : rowIsFixed = fun r => decide (∀ x ∈ (r.drop 6).take 3, |x| ≤ atol) :=
    funext rowIsFixed_eq
  constructor
  · have hlt : ¬ m.ncols < 9 := not_lt.mpr h9
    simp only [classify, hlt, if_false, hf1, hf2]
  · intro p ps r rs hp hr hload hfix
    subst hp
    rw [hr]
    constructor
    · simp only [List.map_cons, boolSelect, decide_eq_true hload, if_true]
      exact List.mem_cons_self _ _
    · simp only [List.map_cons, boolSelect, decide_eq_true hfix, if_true]
      exact List.mem_cons_self _ _

/-- Witness for C2 at a concrete input: one node with load component 1
and zero restraints; the classifier output is characterized as claimed. -/
theorem classify_boundary_rule_witness :
    classify [((0 : ℚ), (0 : ℚ), (0 : ℚ))]
        (some (.arr2 ⟨[[0, 0, 0, 1, 0, 0, 0, 0, 0]], 9⟩)) =
      .classified
        (boolSelect [((0 : ℚ), (0 : ℚ), (0 : ℚ))]
          ([[(0 : ℚ), 0, 0, 1, 0, 0, 0, 0, 0]].map
            (fun r => decide (∃ x ∈ (r.drop 3).take 3, atol < |x|))))
        (boolSelect [((0 : ℚ), (0 : ℚ), (0 : ℚ))]
          ([[(0 : ℚ), 0, 0, 1, 0, 0, 0, 0, 0]].map
            (fun r => decide (∀ x ∈ (r.drop 6).take 3, |x| ≤ atol)))) :=
  (classify_boundary_rule _ _ (by decide)).1

/-- C7: an absent feature matrix, a non-2-D one, or one with fewer than 9
columns makes the classifier return the insufficient-data outcome (and
hence no load/fixed partition), without raising. -/
theorem classify_insufficient (points : List Pt3) (feats : Option FeatData)
    (h : feats = none ∨ (∃ xs, feats = some (.arr1 xs))
      ∨ (∃ d, feats = some (.arrHigher d))
      ∨ (∃ m, feats = some (.arr2 m) ∧ m.ncols < 9)) :
    classify points feats = .insufficient := by
  rcases h with h | ⟨xs, h⟩ | ⟨d, h⟩ | ⟨m, h, hm⟩ <;> subst h
  · rfl
  · rfl
  · rfl
  · simp [classify, hm]

/-- Witness for C7 at a concrete input: a 6-column feature matrix. -/
theorem classify_insufficient_witness :
    classify [] (some (.arr2 ⟨[[(1 : ℚ), 2, 3, 4, 5, 6]], 6⟩)) = .insufficient :=
  classify_insufficient _ _ (Or.inr (Or.inr (Or.inr ⟨_, rfl, by decide⟩)))

/-- `np.nanmin` over a 1-D array: raises (ValueError) on an empty array,
returns NaN when every entry is NaN, and otherwise the minimum of the
non-NaN entries. -/
def nanmin (xs : List Fl) : Except Unit Fl :=
  if xs.isEmpty then .error ()
  else
    match xs.filter (fun x => !x.isNan) with
    | [] => .ok .nan
    | v :: vs => .ok (vs.foldl fmin v)

/-- `np.nanmax` over a 1-D array, dually to `nanmin`. -/
def nanmax (xs : List Fl) : Except Unit Fl :=
  if xs.isEmpty then .error ()
  else
    match xs.filter (fun x => !x.isNan) with
    | [] => .ok .nan
    | v :: vs => .ok (vs.foldl fmax v)

/-- NaN-ignoring binary minimum, `np.nanmin([x, y])` as a value. -/
def nanmin2 (x y : Fl) : Fl :=
  if x.isNan then (if y.isNan then .nan else y)
  else (if y.isNan then x else fmin x y)

/-- NaN-ignoring binary maximum, `np.nanmax([x, y])` as a value. -/
def nanmax2 (x y : Fl) : Fl :=
  if x.isNan then (if y.isNan then .nan else y)
  else (if y.isNan then x else fmax x y)

/-- The shared color-range computation of `PyVistaBackend.show`
(src/1109/backend_pyvista.py lines 84-90):
`vmin = nanmin([nanmin(a), nanmin(b)])`, `vmax = nanmax([nanmax(a),
nanmax(b)])`; the range is kept only when both are finite and
`vmax > vmin`; any raised numeric error leaves the range unset. -/
def unify (a b : List Fl) : Option (Fl × Fl) :=
  match nanmin a with
  | .error _ => none
  | .ok ma =>
    match nanmin b with
    | .error _ => none
    | .ok mb =>
      match nanmax a with
      | .error _ => none
      | .ok xa =>
        match nanmax b with
        | .error _ => none
        | .ok xb =>
          match nanmin [ma, mb], nanmax [xa, xb] with
          | .ok vmin, .ok vmax =>
            if vmin.isFinite && vmax.isFinite && fltB vmin vmax then
              some (vmin, vmax)
            else none
          | _, _ => none

theorem nanmin_pair (x y : Fl) : nanmin [x, y] = .ok (nanmin2 x y) := by
  cases x <;> cases y <;> rfl

theorem nanmax_pair (x y : Fl) : nanmax [x, y] = .ok (nanmax2 x y) := by
  cases x <;> cases y <;> rfl

theorem filter_notNan_replicate_fin (q : ℚ) (k : ℕ) :
    (List.replicate k (Fl.fin q)).filter (fun x => !x.isNan) =
      List.replicate k (Fl.fin q) := by
  induction k with
  | zero => rfl
  | succ n ih => simp [List.replicate, Fl.isNan, ih]

theorem foldl_fmin_replicate (q : ℚ) (k : ℕ) :
    (List.replicate k (Fl.fin q)).foldl fmin (Fl.fin q) = Fl.fin q := by
  induction k with
  | zero => rfl
  | succ n ih => simpa [List.replicate, fmin, fle] using ih

theorem foldl_fmax_replicate (q : ℚ) (k : ℕ) :
    (List.replicate k (Fl.fin q)).foldl fmax (Fl.fin q) = Fl.fin q := by
  induction k with
  | zero => rfl
  | succ n ih => simpa [List.replicate, fmax, fle] using ih

theorem nanmin_replicate (q : ℚ) (n : ℕ) :
    nanmin (List.replicate (n + 1) (Fl.fin q)) = .ok (Fl.fin q) := by
  simp only [nanmin, List.replicate, List.isEmpty_cons, if_false,
    Bool.false_eq_true]
  rw [show (Fl.fin q :: List.replicate n (Fl.fin q)) =
      List.replicate (n + 1) (Fl.fin q) from rfl,
    filter_notNan_replicate_fin q (n + 1)]
  simp only [List.replicate]
  rw [foldl_fmin_replicate]

theorem nanmax_replicate (q : ℚ) (n : ℕ) :
    nanmax (List.replicate (n + 1) (Fl.fin q)) = .ok (Fl.fin q) := by
  simp only [nanmax, List.replicate, List.isEmpty_cons, if_false,
    Bool.false_eq_true]
  rw [show (Fl.fin q :: List.replicate n (Fl.fin q)) =
      List.replicate (n + 1) (Fl.fin q) from rfl,
    filter_notNan_replicate_fin q (n + 1)]
  simp only [List.replicate]
  rw [foldl_fmax_replicate]

/-- C3: the color-range unifier returns a pair exactly when the NaN-aware
minimum of the two per-array `nanmin`s and the NaN-aware maximum of the
two per-array `nanmax`s are both finite with the maximum strictly
greater; it never raises (empty arrays give `none`), constant equal
arrays give `none`, and `unify [1,2,3] [0,5,9] = (0, 9)`. -/
theorem unify_range_rule :
    (∀ a b v w, unify a b = some (v, w) ↔
      (∃ ma mb xa xb, nanmin a = .ok ma ∧ nanmin b = .ok mb ∧
        nanmax a = .ok xa ∧ nanmax b = .ok xb ∧
        v = nanmin2 ma mb ∧ w = nanmax2 xa xb ∧
        v.isFinite = true ∧ w.isFinite = true ∧ fltB v w = true))
    ∧ unify [Fl.fin 1, Fl.fin 2, Fl.fin 3] [Fl.fin 0, Fl.fin 5, Fl.fin 9]
        = some (Fl.fin 0, Fl.fin 9)
    ∧ (∀ (q : ℚ) (n m : ℕ),
        unify (List.replicate (n + 1) (Fl.fin q))
          (List.replicate (m + 1) (Fl.fin q)) = none)
    ∧ (∀ b, unify [] b = none) ∧ (∀ a, unify a [] = none) := by
  refine ⟨?_, ?_, ?_, ?_, ?_⟩
  · intro a b v w
    constructor
    · intro h
      unfold unify at h
      cases hma : nanmin a with
      | error e => simp [hma] at h
      | ok ma =>
        simp only [hma] at h
        cases hmb : nanmin b with
        | error e => simp [hmb] at h
        | ok mb =>
          simp only [hmb] at h
          cases hxa : nanmax a with
          | error e => simp [hxa] at h
          | ok xa =>
            simp only [hxa] at h
            cases hxb : nanmax b with
            | error e => simp [hxb] at h
            | ok xb =>
              simp only [hxb, nanmin_pair, nanmax_pair] at h
              by_cases hc : ((nanmin2 ma mb).isFinite && (nanmax2 xa xb).isFinite
                  && fltB (nanmin2 ma mb) (nanmax2 xa xb)) = true
              · rw [if_pos hc] at h
                obtain ⟨hv, hw⟩ : nanmin2 ma mb = v ∧ nanmax2 xa xb = w := by
                  simpa using h
                subst hv
                subst hw
                simp only [Bool.and_eq_true] at hc
                exact ⟨ma, mb, xa, xb, rfl, rfl, rfl, rfl, rfl, rfl,
                  hc.1.1, hc.1.2, hc.2⟩
              · rw [if_neg hc] at h
                cases h
    · rintro ⟨ma, mb, xa, xb, hma, hmb, hxa, hxb, rfl, rfl, hf1, hf2, hlt⟩
      unfold unify
      simp only [hma, hmb, hxa, hxb, nanmin_pair, nanmax_pair]
      rw [if_pos (by rw [hf1, hf2, hlt]; rfl)]
  · rfl
  · intro q n m
    unfold unify
    simp only [nanmin_replicate, nanmax_replicate, nanmin_pair, nanmax_pair]
    rw [if_neg]
    simp [nanmin2, nanmax2, fmin, fmax, fle, fltB, Fl.isNan, Fl.isFinite]
  · intro b
    rfl
  · intro a
    unfold unify
    cases h : nanmin a with
    | error e => simp [h]
    | ok ma => simp [h, nanmin]

/-- A per-point data array of a grid: 1-D, or 2-D with an explicit column
count (`shape[1]`), over real scalars. -/
inductive NpR where
  | a1 (xs : List ℝ)
  | a2 (rows : List (List ℝ)) (ncols : ℕ)

/-- `arr.ndim`. -/
def NpR.ndim : NpR → ℕ
  | .a1 _ => 1
  | .a2 _ _ => 2

/-- Association-list lookup: a Python dict read `d[k]` as an Option. -/
def alistGet {α : Type} : List (String × α) → String → Option α
  | [], _ => none
  | (k, w) :: rest, n => if k = n then some w else alistGet rest n

/-- Association-list write with Python dict semantics (`d[k] = v`):
update the existing key in place, otherwise append. -/
def alistSet {α : Type} : List (String × α) → String → α → List (String × α)
  | [], n, v => [(n, v)]
  | (k, w) :: rest, n, v =>
    if k = n then (k, v) :: rest else (k, w) :: alistSet rest n v

/-- A pyvista grid as the extraction pipeline sees it: its named
`point_data` arrays. -/
structure Grid where
  pd : List (String × NpR)

/-- The Python object heap restricted to grid objects: cell `r` holds the
grid with reference `r`; `Vis_tools.subset` and the extractor locals hold
references into it. -/
structure Heap where
  grids : List Grid

/-- Dereference a grid. -/
def Heap.get (h : Heap) (r : ℕ) : Grid := h.grids.getD r ⟨[]⟩

/-- Mutate the grid object at reference `r`. -/
def Heap.set (h : Heap) (r : ℕ) (g : Grid) : Heap := ⟨h.grids.set r g⟩

/-- `base.copy()`: allocate a fresh, independent grid object with the
given contents; returns the grown heap and the new reference. -/
def Heap.alloc (h : Heap) (g : Grid) : Heap × ℕ :=
  (⟨h.grids ++ [g]⟩, h.grids.length)

/-- `g.point_data[n]` as an Option. -/
def pdGet (g : Grid) (n : String) : Option NpR := alistGet g.pd n

/-- `g.point_data[n] = v`. -/
def pdSet (g : Grid) (n : String) (v : NpR) : Grid := ⟨alistSet g.pd n v⟩

/-- The `Vis_tools` state as used by the extractors: its `subset`
attribute, a reference to a grid object on the heap. -/
structure Vis where
  subset : ℕ
deriving DecidableEq, Repr

/-- Errors raised inside the solution-switching / extraction code. -/
inductive VErr where
  | missingField (n : String)   -- ValueError "檔案缺少 ... 欄位" / KeyError
  | indexError                  -- numpy indexing failure
deriving DecidableEq, Repr

/-- `arr[:, 4]`: column 4 of a 2-D array with more than 4 columns,
an IndexError otherwise. -/
def col4 : NpR → Except VErr NpR
  | .a1 _ => .error .indexError
  | .a2 rows k =>
    if 4 < k then .ok (.a1 (rows.map (fun r => r.getD 4 0)))
    else .error .indexError

/-- `Vis_tools.dis_solution` (src/1109/vis_lab.py lines 73-78): requires
the `displacement` field on `self.subset` and copies it into `solution`. -/
def dis_solution (h : Heap) (v : Vis) : Except VErr Heap :=
  match pdGet (h.get v.subset) "displacement" with
  | none => .error (.missingField "displacement")
  | some arr => .ok (h.set v.subset (pdSet (h.get v.subset) "solution" arr))

/-- `Vis_tools.stress_solution` (src/1109/vis_lab.py lines 80-87):
requires the `stress` field, reads its column 4 as the already-computed
Von Mises stress and stores it in `solution`. -/
def stress_solution (h : Heap) (v : Vis) : Except VErr Heap :=
  match pdGet (h.get v.subset) "stress" with
  | none => .error (.missingField "stress")
  | some arr =>
    match col4 arr with
    | .error e => .error e
    | .ok von => .ok (h.set v.subset (pdSet (h.get v.subset) "solution" von))

/-- `Vis_tools.stress_pr_solution` (src/1109/vis_lab.py lines 89-94):
requires the `von_mises_stress_pred` field and copies it into
`solution`. -/
def stress_pr_solution (h : Heap) (v : Vis) : Except VErr Heap :=
  match pdGet (h.get v.subset) "von_mises_stress_pred" with
  | none => .error (.missingField "von_mises_stress_pred")
  | some arr => .ok (h.set v.subset (pdSet (h.get v.subset) "solution" arr))

/-- One row of `np.linalg.norm(arr, axis=1)`: the Euclidean norm of a
row. -/
noncomputable def rowNorm (r : List ℝ) : ℝ :=
  Real.sqrt ((r.map (fun x => x ^ 2)).sum)

/-- Core of `_safe_norm_if_vector` on a non-None array
(src/1109/result_registry.py lines 7-12): a rank-2 array with more than
one column reduces to per-row Euclidean norms, anything else passes
through unchanged. -/
noncomputable def safeNormCore : NpR → NpR
  | .a2 rows k => if 1 < k then .a1 (rows.map rowNorm) else .a2 rows k
  | .a1 xs => .a1 xs

/-- `_safe_norm_if_vector` including the None short-circuit. -/
noncomputable def safe_norm_if_vector (arr : Option NpR) : Option NpR :=
  match arr with
  | none => none
  | some a => some (safeNormCore a)

/-- `arr.ravel()`. -/
def ravel : NpR → NpR
  | .a1 xs => .a1 xs
  | .a2 rows _ => .a1 rows.flatten

/-- A plot payload `(grid, scalar-field name, title)`; the grid is the
heap reference of the extractor's private copy. -/
structure PlotPayload where
  gref : ℕ
  scal : String
  title : String
deriving DecidableEq, Repr

/-- The shared shape of all six extractors in
src/1109/result_registry.py: `g = base.copy()`, `vis.subset = g`, run the
solution switcher on the copy, then finish (read `solution`, optionally
write a derived field) on the copy. -/
def withCopy {α : Type} (solver : Heap → Vis → Except VErr Heap)
    (finish : Heap → ℕ → Heap × Except VErr α)
    (h : Heap) (base : ℕ) : Heap × Vis × Except VErr α :=
  let h1 := (h.alloc (h.get base)).1
  let gref := (h.alloc (h.get base)).2
  let v1 : Vis := ⟨gref⟩
  match solver h1 v1 with
  | .error e => (h1, v1, .error e)
  | .ok h2 => ((finish h2 gref).1, v1, (finish h2 gref).2)

/-- Finishing step of a plot extractor: read `solution` from the copy,
derive `f` of it, store it under `field` on the copy, and return the
payload `(copy, field, title)`. -/
def finishPlotWith (field title : String) (f : NpR → NpR)
    (h2 : Heap) (gref : ℕ) : Heap × Except VErr PlotPayload :=
  match pdGet (h2.get gref) "solution" with
  | none => (h2, .error (.missingField "solution"))
  | some arr =>
    (h2.set gref (pdSet (h2.get gref) field (f arr)), .ok ⟨gref, field, title⟩)

/-- Finishing step of a metric extractor: read `solution` from the copy
and return `f` of it; the heap is untouched. -/
def finishMetricWith (f : NpR → NpR) (h2 : Heap) (gref : ℕ) :
    Heap × Except VErr NpR :=
  match pdGet (h2.get gref) "solution" with
  | none => (h2, .error (.missingField "solution"))
  | some arr => (h2, .ok (f arr))

/-- `_plot_dis` (src/1109/result_registry.py lines 41-48): copy the base
grid, point `vis.subset` at the copy, run `dis_solution`, reduce the
`solution` field with `_safe_norm_if_vector` into `dis_mag`, and return
the payload. -/
noncomputable def plot_dis (h : Heap) (v : Vis) (base : ℕ) :
    Heap × Vis × Except VErr PlotPayload :=
  withCopy dis_solution
    (finishPlotWith "dis_mag" "Displacement (magnitude)" safeNormCore) h base

/-- `_metric_dis` (src/1109/result_registry.py lines 50-55). -/
noncomputable def metric_dis (h : Heap) (v : Vis) (base : ℕ) :
    Heap × Vis × Except VErr NpR :=
  withCopy dis_solution (finishMetricWith safeNormCore) h base

/-- `_plot_von` (src/1109/result_registry.py lines 60-66): the `solution`
written by `stress_solution` is stored unchanged under `von`. -/
def plot_von (h : Heap) (v : Vis) (base : ℕ) :
    Heap × Vis × Except VErr PlotPayload :=
  withCopy stress_solution (finishPlotWith "von" "Von Mises stress" id) h base

/-- `_metric_von` (src/1109/result_registry.py lines 68-72): returns
`solution.ravel()`. -/
def metric_von (h : Heap) (v : Vis) (base : ℕ) :
    Heap × Vis × Except VErr NpR :=
  withCopy stress_solution (finishMetricWith ravel) h base

/-- `_plot_pred` (src/1109/result_registry.py lines 77-83). -/
def plot_pred (h : Heap) (v : Vis) (base : ℕ) :
    Heap × Vis × Except VErr PlotPayload :=
  withCopy stress_pr_solution (finishPlotWith "pred" "Predicted stress" id) h base

/-- `_metric_pred` (src/1109/result_registry.py lines 85-89). -/
def metric_pred (h : Heap) (v : Vis) (base : ℕ) :
    Heap × Vis × Except VErr NpR :=
  withCopy stress_pr_solution (finishMetricWith ravel) h base

/-- A registered observable: display title plus the two extraction
functions (the stored triple of `ResultRegistry.register`,
src/1109/result_registry.py lines 18-23). -/
structure ResultEntry where
  title : String
  plot : Heap → Vis → ℕ → Heap × Vis × Except VErr PlotPayload
  metric : Heap → Vis → ℕ → Heap × Vis × Except VErr NpR

/-- `ResultRegistry.register`: last write wins on an existing key. -/
def registerResult (rg : List (String × ResultEntry)) (key title : String)
    (plot : Heap → Vis → ℕ → Heap × Vis × Except VErr PlotPayload)
    (metric : Heap → Vis → ℕ → Heap × Vis × Except VErr NpR) :
    List (String × ResultEntry) :=
  alistSet rg key ⟨title, plot, metric⟩

/-- The global `ResultTypes` registry with its three built-in
registrations (src/1109/result_registry.py lines 38-91). -/
noncomputable def ResultTypes : List (String × ResultEntry) :=
  registerResult (registerResult (registerResult []
    "dis" "Displacement" plot_dis metric_dis)
    "von" "Von Mises stress" plot_von metric_von)
    "pred" "Predicted stress" plot_pred metric_pred

theorem alistGet_alistSet_self {α : Type} (l : List (String × α)) (n : String) (v : α) :
    alistGet (alistSet l n v) n = some v := by
  induction l with
  | nil => simp [alistGet, alistSet]
  | cons kv rest ih =>
    by_cases hk : kv.1 = n
    · simp [alistGet, alistSet, hk]
    · simp [alistGet, alistSet, hk, ih]

theorem alistGet_alistSet_ne {α : Type} (l : List (String × α)) (n m : String)
    (v : α) (h : m ≠ n) :
    alistGet (alistSet l n v) m = alistGet l m := by
  induction l with
  | nil => simp [alistGet, alistSet, Ne.symm h]
  | cons kv rest ih =>
    by_cases hk : kv.1 = n
    · simp [alistGet, alistSet, hk, Ne.symm h]
    · by_cases hm : kv.1 = m
      · simp [alistGet, alistSet, hk, hm, h]
      · simp [alistGet, alistSet, hk, hm, ih]

theorem alistGet_mem {α : Type} (l : List (String × α)) (k : String) (v : α)
    (h : alistGet l k = some v) : (k, v) ∈ l := by
  induction l with
  | nil => cases h
  | cons kv rest ih =>
    by_cases hk : kv.1 = k
    · rw [alistGet, if_pos hk] at h
      obtain rfl : kv.2 = v := by simpa using h
      rw [← hk]
      exact List.mem_cons_self _ _
    · rw [alistGet, if_neg hk] at h
      exact List.mem_cons_of_mem _ (ih h)

theorem pdGet_pdSet_self (g : Grid) (n : String) (v : NpR) :
    pdGet (pdSet g n v) n = some v := alistGet_alistSet_self g.pd n v

theorem pdGet_pdSet_ne (g : Grid) (n m : String) (v : NpR) (h : m ≠ n) :
    pdGet (pdSet g n v) m = pdGet g m := alistGet_alistSet_ne g.pd n m v h

theorem getD_append_lt {α : Type} (l l2 : List α) (r : ℕ) (d : α)
    (h : r < l.length) : (l ++ l2).getD r d = l.getD r d := by
  induction l generalizing r with
  | nil => cases h
  | cons x xs ih =>
    cases r with
    | zero => rfl
    | succ n =>
      simp only [List.cons_append, List.getD_cons_succ]
      exact ih n (Nat.lt_of_succ_lt_succ h)

theorem getD_append_self {α : Type} (l : List α) (g d : α) :
    (l ++ [g]).getD l.length d = g := by
  induction l with
  | nil => rfl
  | cons x xs ih => simpa using ih

theorem getD_set_self {α : Type} (l : List α) (n : ℕ) (g d : α)
    (h : n < l.length) : (l.set n g).getD n d = g := by
  induction l generalizing n with
  | nil => cases h
  | cons x xs ih =>
    cases n with
    | zero => rfl
    | succ m =>
      simp only [List.set_cons_succ, List.getD_cons_succ]
      exact ih m (Nat.lt_of_succ_lt_succ h)

theorem getD_set_ne {α : Type} (l : List α) (n r : ℕ) (g d : α)
    (h : r ≠ n) : (l.set n g).getD r d = l.getD r d := by
  induction l generalizing n r with
  | nil => rfl
  | cons x xs ih =>
    cases n with
    | zero =>
      cases r with
      | zero => exact absurd rfl h
      | succ m => rfl
    | succ m =>
      cases r with
      | zero => rfl
      | succ s =>
        simp only [List.set_cons_succ, List.getD_cons_succ]
        exact ih m s (fun hh => h (congrArg Nat.succ hh))

theorem Heap.get_set_self (h : Heap) (r : ℕ) (g : Grid)
    (hr : r < h.grids.length) : (h.set r g).get r = g :=
  getD_set_self h.grids r g _ hr

theorem Heap.get_set_ne (h : Heap) (r s : ℕ) (g : Grid) (hne : r ≠ s) :
    (h.set s g).get r = h.get r :=
  getD_set_ne h.grids s r g _ hne

theorem Heap.length_set (h : Heap) (s : ℕ) (g : Grid) :
    (h.set s g).grids.length = h.grids.length := by
  simp [Heap.set]

theorem Heap.get_alloc_old (h : Heap) (g : Grid) (r : ℕ)
    (hr : r < h.grids.length) : ((h.alloc g).1).get r = h.get r :=
  getD_append_lt h.grids [g] r _ hr

theorem Heap.get_alloc_new (h : Heap) (g : Grid) :
    ((h.alloc g).1).get h.grids.length = g :=
  getD_append_self h.grids g _

theorem Heap.length_alloc (h : Heap) (g : Grid) :
    ((h.alloc g).1).grids.length = h.grids.length + 1 := by
  simp [Heap.alloc]

/-- The result heap of an extractor run on base heap `h`: one cell longer
than `h` and identical to `h` strictly below the old length. -/
def ExtendsAt (h : Heap) (n : ℕ) (h2 : Heap) : Prop :=
  h2.grids.length = n + 1 ∧ ∀ r, r < n → h2.get r = h.get r

theorem extendsAt_alloc (h : Heap) (g : Grid) :
    ExtendsAt h h.grids.length (h.alloc g).1 :=
  ⟨Heap.length_alloc h g, fun r hr => Heap.get_alloc_old h g r hr⟩

theorem extendsAt_set (h h2 : Heap) (n : ℕ) (g : Grid)
    (he : ExtendsAt h n h2) : ExtendsAt h n (h2.set n g) :=
  ⟨by rw [Heap.length_set]; exact he.1,
   fun r hr => by
     rw [Heap.get_set_ne h2 r n g (Nat.ne_of_lt hr)]
     exact he.2 r hr⟩

theorem dis_solution_ok (h : Heap) (v : Vis) (h2 : Heap)
    (hok : dis_solution h v = .ok h2) : ∃ g, h2 = h.set v.subset g := by
  unfold dis_solution at hok
  cases hp : pdGet (h.get v.subset) "displacement" with
  | none => rw [hp] at hok; cases hok
  | some arr =>
    rw [hp] at hok
    exact ⟨_, (by simpa using hok.symm)⟩

theorem stress_solution_ok (h : Heap) (v : Vis) (h2 : Heap)
    (hok : stress_solution h v = .ok h2) : ∃ g, h2 = h.set v.subset g := by
  unfold stress_solution at hok
  cases hp : pdGet (h.get v.subset) "stress" with
  | none => rw [hp] at hok; cases hok
  | some arr =>
    rw [hp] at hok
    cases hc : col4 arr with
    | error e => simp only [hc] at hok; cases hok
    | ok von =>
      simp only [hc] at hok
      exact ⟨_, (by simpa using hok.symm)⟩

theorem stress_pr_solution_ok (h : Heap) (v : Vis) (h2 : Heap)
    (hok : stress_pr_solution h v = .ok h2) : ∃ g, h2 = h.set v.subset g := by
  unfold stress_pr_solution at hok
  cases hp : pdGet (h.get v.subset) "von_mises_stress_pred" with
  | none => rw [hp] at hok; cases hok
  | some arr =>
    rw [hp] at hok
    exact ⟨_, (by simpa using hok.symm)⟩

theorem alloc_snd (h : Heap) (g : Grid) : (h.alloc g).2 = h.grids.length := rfl

theorem vis_subset_mk (n : ℕ) : (Vis.mk n).subset = n := rfl

theorem finishPlotWith_frame (field title : String) (f : NpR → NpR)
    (hh : Heap) (n : ℕ) :
    (finishPlotWith field title f hh n).1.grids.length = hh.grids.length
    ∧ ∀ s, s ≠ n → (finishPlotWith field title f hh n).1.get s = hh.get s := by
  unfold finishPlotWith
  cases hp : pdGet (hh.get n) "solution" with
  | none => exact ⟨rfl, fun s _ => rfl⟩
  | some arr =>
    simp only [hp]
    exact ⟨Heap.length_set _ _ _, fun s hs => Heap.get_set_ne _ _ _ _ hs⟩

theorem finishMetricWith_heap (f : NpR → NpR) (hh : Heap) (n : ℕ) :
    (finishMetricWith f hh n).1 = hh := by
  unfold finishMetricWith
  cases hp : pdGet (hh.get n) "solution" with
  | none => rfl
  | some arr => simp only [hp]

theorem finishMetricWith_frame (f : NpR → NpR) (hh : Heap) (n : ℕ) :
    (finishMetricWith f hh n).1.grids.length = hh.grids.length
    ∧ ∀ s, s ≠ n → (finishMetricWith f hh n).1.get s = hh.get s := by
  rw [finishMetricWith_heap]
  exact ⟨rfl, fun s _ => rfl⟩

theorem withCopy_extends {α : Type} (solver : Heap → Vis → Except VErr Heap)
    (finish : Heap → ℕ → Heap × Except VErr α)
    (hsolver : ∀ hh vv h2, solver hh vv = .ok h2 → ∃ g, h2 = hh.set vv.subset g)
    (hfinish : ∀ hh n, (finish hh n).1.grids.length = hh.grids.length
      ∧ ∀ s, s ≠ n → (finish hh n).1.get s = hh.get s)
    (h : Heap) (base : ℕ) :
    ExtendsAt h h.grids.length (withCopy solver finish h base).1
    ∧ (withCopy solver finish h base).2.1 = ⟨h.grids.length⟩ := by
  unfold withCopy
  cases hsol : solver (h.alloc (h.get base)).1 ⟨(h.alloc (h.get base)).2⟩ with
  | error e =>
    simp only [hsol]
    exact ⟨extendsAt_alloc h (h.get base), rfl⟩
  | ok h2 =>
    simp only [hsol]
    obtain ⟨g2, rfl⟩ := hsolver _ _ _ hsol
    refine ⟨?_, rfl⟩
    have hA : ExtendsAt h h.grids.length
        ((h.alloc (h.get base)).1.set h.grids.length g2) :=
      extendsAt_set _ _ _ _ (extendsAt_alloc h (h.get base))
    obtain ⟨hlen, hget⟩ :=
      hfinish ((h.alloc (h.get base)).1.set h.grids.length g2) h.grids.length
    constructor
    · show (finish ((h.alloc (h.get base)).1.set h.grids.length g2)
        h.grids.length).1.grids.length = h.grids.length + 1
      rw [hlen]
      exact hA.1
    · intro r hr
      show (finish ((h.alloc (h.get base)).1.set h.grids.length g2)
        h.grids.length).1.get r = h.get r
      rw [hget r (Nat.ne_of_lt hr)]
      exact hA.2 r hr

theorem resultTypes_eq :
    ResultTypes = [("dis", ⟨"Displacement", plot_dis, metric_dis⟩),
      ("von", ⟨"Von Mises stress", plot_von, metric_von⟩),
      ("pred", ⟨"Predicted stress", plot_pred, metric_pred⟩)] := rfl

theorem resultTypes_cases (key : String) (e : ResultEntry)
    (hk : alistGet ResultTypes key = some e) :
    e = ⟨"Displacement", plot_dis, metric_dis⟩
    ∨ e = ⟨"Von Mises stress", plot_von, metric_von⟩
    ∨ e = ⟨"Predicted stress", plot_pred, metric_pred⟩ := by
  have hm := alistGet_mem _ _ _ hk
  rw [resultTypes_eq] at hm
  simp only [List.mem_cons, List.not_mem_nil, or_false] at hm
  rcases hm with hh | hh | hh
  · exact Or.inl (congrArg Prod.snd hh)
  · exact Or.inr (Or.inl (congrArg Prod.snd hh))
  · exact Or.inr (Or.inr (congrArg Prod.snd hh))

theorem entry_extends (key : String) (e : ResultEntry)
    (hk : alistGet ResultTypes key = some e) (h : Heap) (v : Vis) (base : ℕ) :
    ExtendsAt h h.grids.length (e.plot h v base).1
    ∧ ExtendsAt h h.grids.length (e.metric h v base).1
    ∧ (e.plot h v base).2.1 = ⟨h.grids.length⟩
    ∧ (e.metric h v base).2.1 = ⟨h.grids.length⟩ := by
  rcases resultTypes_cases key e hk with rfl | rfl | rfl
  · exact ⟨(withCopy_extends _ _ dis_solution_ok
        (finishPlotWith_frame _ _ _) h base).1,
      (withCopy_extends _ _ dis_solution_ok
        (finishMetricWith_frame _) h base).1,
      (withCopy_extends _ _ dis_solution_ok
        (finishPlotWith_frame _ _ _) h base).2,
      (withCopy_extends _ _ dis_solution_ok
        (finishMetricWith_frame _) h base).2⟩
  · exact ⟨(withCopy_extends _ _ stress_solution_ok
        (finishPlotWith_frame _ _ _) h base).1,
      (withCopy_extends _ _ stress_solution_ok
        (finishMetricWith_frame _) h base).1,
      (withCopy_extends _ _ stress_solution_ok
        (finishPlotWith_frame _ _ _) h base).2,
      (withCopy_extends _ _ stress_solution_ok
        (finishMetricWith_frame _) h base).2⟩
  · exact ⟨(withCopy_extends _ _ stress_pr_solution_ok
        (finishPlotWith_frame _ _ _) h base).1,
      (withCopy_extends _ _ stress_pr_solution_ok
        (finishMetricWith_frame _) h base).1,
      (withCopy_extends _ _ stress_pr_solution_ok
        (finishPlotWith_frame _ _ _) h base).2,
      (withCopy_extends _ _ stress_pr_solution_ok
        (finishMetricWith_frame _) h base).2⟩

/-- C8: every registered extractor (both modes) operates only on its
private copy: every pre-existing heap cell - in particular the base grid
with all its point_data - is untouched, the `solution` field of the base
grid is unchanged, and a subsequent right-side extraction from the same
base reads the very same base grid. -/
theorem extract_copy_frame (key : String) (e : ResultEntry)
    (hk : alistGet ResultTypes key = some e) (h : Heap) (v : Vis) (base : ℕ)
    (hb : base < h.grids.length) :
    (∀ r, r < h.grids.length →
      (e.plot h v base).1.get r = h.get r
      ∧ (e.metric h v base).1.get r = h.get r)
    ∧ pdGet ((e.plot h v base).1.get base) "solution"
        = pdGet (h.get base) "solution"
    ∧ (∀ key2 e2, alistGet ResultTypes key2 = some e2 →
        (e2.plot (e.plot h v base).1 (e.plot h v base).2.1 base).1.get base
          = h.get base) := by
  obtain ⟨hPlot, hMetric, hVisP, hVisM⟩ := entry_extends key e hk h v base
  refine ⟨?_, ?_, ?_⟩
  · intro r hr
    exact ⟨hPlot.2 r hr, hMetric.2 r hr⟩
  · rw [hPlot.2 base hb]
  · intro key2 e2 hk2
    obtain ⟨hPlot2, _, _, _⟩ :=
      entry_extends key2 e2 hk2 (e.plot h v base).1 (e.plot h v base).2.1 base
    have hb2 : base < (e.plot h v base).1.grids.length := by
      rw [hPlot.1]
      exact Nat.lt_succ_of_lt hb
    rw [hPlot2.2 base hb2]
    exact hPlot.2 base hb

/-- C10: every registered extractor (both modes) reassigns the passed
`Vis_tools` object's `subset` attribute to the freshly allocated private
copy of the base grid, so after the call it no longer refers to the grid
it referred to before. -/
theorem extract_subset_reassigned (key : String) (e : ResultEntry)
    (hk : alistGet ResultTypes key = some e) (h : Heap) (v : Vis) (base : ℕ)
    (hv : v.subset < h.grids.length) :
    (e.plot h v base).2.1 = ⟨h.grids.length⟩
    ∧ (e.metric h v base).2.1 = ⟨h.grids.length⟩
    ∧ (e.plot h v base).2.1.subset ≠ v.subset
    ∧ (e.metric h v base).2.1.subset ≠ v.subset := by
  obtain ⟨_, _, hVisP, hVisM⟩ := entry_extends key e hk h v base
  refine ⟨hVisP, hVisM, ?_, ?_⟩
  · rw [hVisP, vis_subset_mk]
    exact (Nat.ne_of_lt hv).symm
  · rw [hVisM, vis_subset_mk]
    exact (Nat.ne_of_lt hv).symm

/-- A concrete one-grid heap used by the witnesses: the single grid holds
a 5-column `stress` array whose Von Mises column (index 4) is `[7]`. -/
noncomputable def heapStress : Heap :=
  ⟨[⟨[("stress", NpR.a2 [[0, 0, 0, 0, 7]] 5)]⟩]⟩

/-- Witness for C8 at a concrete input: the base grid is unchanged by a
Von Mises plot extraction. -/
theorem extract_copy_frame_witness :
    pdGet (((⟨"Von Mises stress", plot_von, metric_von⟩ : ResultEntry).plot
        heapStress ⟨0⟩ 0).1.get 0) "solution"
      = pdGet (heapStress.get 0) "solution" :=
  (extract_copy_frame "von" ⟨"Von Mises stress", plot_von, metric_von⟩ rfl
    heapStress ⟨0⟩ 0 (by simp [heapStress])).2.1

/-- Witness for C10 at a concrete input. -/
theorem extract_subset_reassigned_witness :
    ((⟨"Von Mises stress", plot_von, metric_von⟩ : ResultEntry).plot
        heapStress ⟨0⟩ 0).2.1 = ⟨heapStress.grids.length⟩ :=
  (extract_subset_reassigned "von" ⟨"Von Mises stress", plot_von, metric_von⟩
    rfl heapStress ⟨0⟩ 0 (by simp [heapStress])).1

theorem dis_solution_on_copy (h : Heap) (base : ℕ) (arr0 : NpR)
    (hd : pdGet (h.get base) "displacement" = some arr0) :
    dis_solution ((h.alloc (h.get base)).1) ⟨h.grids.length⟩
      = .ok (((h.alloc (h.get base)).1).set h.grids.length
          (pdSet (h.get base) "solution" arr0)) := by
  have h1get : ((h.alloc (h.get base)).1).get h.grids.length = h.get base :=
    Heap.get_alloc_new h (h.get base)
  unfold dis_solution
  simp only [vis_subset_mk, h1get, hd]

theorem metric_dis_result (h : Heap) (v : Vis) (base : ℕ) (arr0 : NpR)
    (hd : pdGet (h.get base) "displacement" = some arr0) :
    (metric_dis h v base).2.2 = .ok (safeNormCore arr0) := by
  have hlen1 : h.grids.length < ((h.alloc (h.get base)).1).grids.length := by
    rw [Heap.length_alloc]
    exact Nat.lt_succ_self _
  have h2get : (((h.alloc (h.get base)).1).set h.grids.length
        (pdSet (h.get base) "solution" arr0)).get h.grids.length
      = pdSet (h.get base) "solution" arr0 :=
    Heap.get_set_self _ _ _ hlen1
  have hfin : pdGet ((((h.alloc (h.get base)).1).set h.grids.length
        (pdSet (h.get base) "solution" arr0)).get h.grids.length) "solution"
      = some arr0 := by
    rw [h2get]
    exact pdGet_pdSet_self _ _ _
  unfold metric_dis withCopy
  simp only [alloc_snd, dis_solution_on_copy h base arr0 hd]
  unfold finishMetricWith
  simp only [hfin]

theorem stress_solution_on_copy (h : Heap) (base : ℕ)
    (rows : List (List ℝ)) (k : ℕ)
    (hs : pdGet (h.get base) "stress" = some (.a2 rows k)) (hk : 5 ≤ k) :
    stress_solution ((h.alloc (h.get base)).1) ⟨h.grids.length⟩
      = .ok (((h.alloc (h.get base)).1).set h.grids.length
          (pdSet (h.get base) "solution"
            (.a1 (rows.map (fun r => r.getD 4 0))))) := by
  have hcol : col4 (NpR.a2 rows k)
      = .ok (.a1 (rows.map (fun r => r.getD 4 0))) := by
    have hk2 : 4 < k := hk
    simp only [col4]
    rw [if_pos hk2]
  have h1get : ((h.alloc (h.get base)).1).get h.grids.length = h.get base :=
    Heap.get_alloc_new h (h.get base)
  unfold stress_solution
  simp only [vis_subset_mk, h1get, hs, hcol]

/-- C9: when the base grid's `stress` field is 2-D with at least 5
columns, the measured-stress plot extraction returns the payload titled
"Von Mises stress" whose scalar field `von` on the extracted copy is
exactly column index 4 of the stress array, read off directly. -/
theorem measured_stress_rule (h : Heap) (v : Vis) (base : ℕ)
    (rows : List (List ℝ)) (k : ℕ)
    (hs : pdGet (h.get base) "stress" = some (.a2 rows k)) (hk : 5 ≤ k) :
    (plot_von h v base).2.2
      = .ok ⟨h.grids.length, "von", "Von Mises stress"⟩
    ∧ pdGet ((plot_von h v base).1.get h.grids.length) "von"
        = some (.a1 (rows.map (fun r => r.getD 4 0))) := by
  have hlen1 : h.grids.length < ((h.alloc (h.get base)).1).grids.length := by
    rw [Heap.length_alloc]
    exact Nat.lt_succ_self _
  have h2get : (((h.alloc (h.get base)).1).set h.grids.length
        (pdSet (h.get base) "solution" (.a1 (rows.map (fun r => r.getD 4 0))))).get
          h.grids.length
      = pdSet (h.get base) "solution" (.a1 (rows.map (fun r => r.getD 4 0))) :=
    Heap.get_set_self _ _ _ hlen1
  have hfin : pdGet ((((h.alloc (h.get base)).1).set h.grids.length
        (pdSet (h.get base) "solution"
          (.a1 (rows.map (fun r => r.getD 4 0))))).get h.grids.length) "solution"
      = some (.a1 (rows.map (fun r => r.getD 4 0))) := by
    rw [h2get]
    exact pdGet_pdSet_self _ _ _
  have hlen2 : h.grids.length < ((((h.alloc (h.get base)).1).set h.grids.length
        (pdSet (h.get base) "solution"
          (.a1 (rows.map (fun r => r.getD 4 0)))))).grids.length := by
    rw [Heap.length_set]
    exact hlen1
  unfold plot_von withCopy
  simp only [alloc_snd, stress_solution_on_copy h base rows k hs hk]
  unfold finishPlotWith
  simp only [hfin]
  constructor
  · trivial
  · rw [Heap.get_set_self _ _ _ hlen2, h2get, pdGet_pdSet_self]
    rfl

/-- Witness for C9 at a concrete input: the one-grid heap whose stress
array is `[[0,0,0,0,7]]` with 5 columns. -/
theorem measured_stress_rule_witness :
    (plot_von heapStress ⟨0⟩ 0).2.2
      = .ok ⟨heapStress.grids.length, "von", "Von Mises stress"⟩
    ∧ pdGet ((plot_von heapStress ⟨0⟩ 0).1.get heapStress.grids.length) "von"
        = some (.a1 ([[(0 : ℝ), 0, 0, 0, 7]].map (fun r => r.getD 4 0))) :=
  measured_stress_rule heapStress ⟨0⟩ 0 [[0, 0, 0, 0, 7]] 5 rfl (by decide)

/-- C4: the shared vector-to-scalar reduction maps a rank-2 array with
more than one column to its per-row Euclidean norms and returns every
other array (rank 2 with at most one column, rank 1, or absent)
unchanged; consequently the displacement metric observable turns an
(N,3) displacement field into the length-N array of row norms and is the
identity on an already 1-D displacement field. -/
theorem vector_reduction_rule :
    (∀ (rows : List (List ℝ)) (k : ℕ), 1 < k →
      safe_norm_if_vector (some (.a2 rows k)) = some (.a1 (rows.map rowNorm)))
    ∧ (∀ (rows : List (List ℝ)) (k : ℕ), ¬ 1 < k →
      safe_norm_if_vector (some (.a2 rows k)) = some (.a2 rows k))
    ∧ (∀ xs : List ℝ, safe_norm_if_vector (some (.a1 xs)) = some (.a1 xs))
    ∧ safe_norm_if_vector none = none
    ∧ (∀ x y z : ℝ, rowNorm [x, y, z] = Real.sqrt (x ^ 2 + y ^ 2 + z ^ 2))
    ∧ (∀ (h : Heap) (v : Vis) (base : ℕ) (rows : List (List ℝ)),
        pdGet (h.get base) "displacement" = some (.a2 rows 3) →
        (∀ r ∈ rows, r.length = 3) →
        (metric_dis h v base).2.2 = .ok (.a1 (rows.map rowNorm))
        ∧ (rows.map rowNorm).length = rows.length)
    ∧ (∀ (h : Heap) (v : Vis) (base : ℕ) (xs : List ℝ),
        pdGet (h.get base) "displacement" = some (.a1 xs) →
        (metric_dis h v base).2.2 = .ok (.a1 xs)) := by
  refine ⟨?_, ?_, ?_, rfl, ?_, ?_, ?_⟩
  · intro rows k hk
    simp only [safe_norm_if_vector, safeNormCore, if_pos hk]
  · intro rows k hk
    simp only [safe_norm_if_vector, safeNormCore, if_neg hk]
  · intro xs
    rfl
  · intro x y z
    unfold rowNorm
    congr 1
    simp only [List.map_cons, List.map_nil, List.sum_cons, List.sum_nil]
    ring
  · intro h v base rows hd hwf
    refine ⟨?_, List.length_map _ _⟩
    rw [metric_dis_result h v base (.a2 rows 3) hd]
    simp only [safeNormCore]
    rw [if_pos (by decide : (1 : ℕ) < 3)]
  · intro h v base xs hd
    rw [metric_dis_result h v base (.a1 xs) hd]
    rfl

/-- Witness for C4 at a concrete input: a (1,2) array reduces to the
row-norm array. -/
theorem vector_reduction_rule_witness :
    safe_norm_if_vector (some (.a2 [[(3 : ℝ), 4]] 2))
      = some (.a1 ([[(3 : ℝ), 4]].map rowNorm)) :=
  vector_reduction_rule.1 [[(3 : ℝ), 4]] 2 (by decide)

/-- Witness for C3 at a concrete input. -/
theorem unify_range_rule_witness :
    unify [Fl.fin 1, Fl.fin 2, Fl.fin 3] [Fl.fin 0, Fl.fin 5, Fl.fin 9]
      = some (Fl.fin 0, Fl.fin 9) :=
  unify_range_rule.2.1
